import Mathlib

/-!
Verification of the SubConvert repository (two Python modules,
`get_suburl.py` and `subcon.py`) against its specification.

Python strings are embedded as `List Char`; machine-level concerns
(bytes) are `List Nat` with values below 256.  Fallible operations
return `Option`.  Network calls are modelled as oracle parameters
(functions supplied to the embedded code), since their results are
outside the program.  The regular-expression searches of the source are
embedded as deterministic character-level matchers that realise the
leftmost-then-greedy semantics of `re.search` for the concrete patterns
appearing in the source (each matcher's derivation is documented at its
definition).
-/

/-- The whitespace characters recognised by Python's `str.strip`, `\s`
in regular expressions, and attribute-value delimiters.  Restricted to
the ASCII range (the source never manipulates non-ASCII whitespace). -/
def isPySpace (c : Char) : Bool :=
  c = ' ' || c = '\t' || c = '\n' || c = '\r' || c = '\x0b' || c = '\x0c'

/-- Python `str.strip()`: remove leading and trailing whitespace. -/
def pyStrip (s : List Char) : List Char :=
  ((s.dropWhile isPySpace).reverse.dropWhile isPySpace).reverse

/-- Python `str.split(sep)` for a one-character separator: keeps empty
segments, and the result is never empty (`"".split(c) == [""]`). -/
def pySplit (sep : Char) : List Char → List (List Char)
  | [] => [[]]
  | c :: rest =>
    if c = sep then [] :: pySplit sep rest
    else
      match pySplit sep rest with
      | s :: ss => (c :: s) :: ss
      | [] => [[c]]

/-- Python `str.splitlines()` restricted to the line boundaries
`\n`, `\r\n` and `\r` (the source data never contains the rarer
Unicode boundaries).  A trailing newline produces no extra line. -/
def pySplitlinesAux : List Char → List Char → List (List Char)
  | acc, [] => if acc.isEmpty then [] else [acc.reverse]
  | acc, '\r' :: '\n' :: rest => acc.reverse :: pySplitlinesAux [] rest
  | acc, '\n' :: rest => acc.reverse :: pySplitlinesAux [] rest
  | acc, '\r' :: rest => acc.reverse :: pySplitlinesAux [] rest
  | acc, c :: rest => pySplitlinesAux (c :: acc) rest

/-- Python `str.splitlines()` (see `pySplitlinesAux`). -/
def pySplitlines (s : List Char) : List (List Char) :=
  pySplitlinesAux [] s

/-- Python `"\n".join(lines)`. -/
def joinLines (ls : List (List Char)) : List Char :=
  List.intercalate ['\n'] ls

/-- Strip a literal from the front of a string: `some` of the remainder
when the literal is present, `none` otherwise. -/
def dropLit? (p s : List Char) : Option (List Char) :=
  if p.isPrefixOf s then some (s.drop p.length) else none

/-- The scheme part `https?://` of the source's URL regexes: `https?` is
greedy, but since `s` and `:` differ the two alternatives are mutually
exclusive, so testing `https://` then `http://` is exact. -/
def schemeSplit (s : List Char) : Option (List Char × List Char) :=
  match dropLit? "https://".data s with
  | some r => some ("https://".data, r)
  | none =>
    match dropLit? "http://".data s with
    | some r => some ("http://".data, r)
    | none => none

/-- `re.search` position scanning: try the single-position matcher `f`
at every start position from the left and return its first success. -/
def reSearch (f : List Char → Option (List Char)) : List Char → Option (List Char)
  | [] => f []
  | c :: t =>
    match f (c :: t) with
    | some r => some r
    | none => reSearch f t

/-- The keyword test used by `extract_subscription_url`:
`any(keyword in url.lower() for keyword in ['link', 'subscribe', 'sub'])`.
`Char.toLower` lowers exactly the ASCII letters, matching Python for the
ASCII keywords involved. -/
def kwIn (u : List Char) : Bool :=
  ["link".data, "subscribe".data, "sub".data].any
    (fun k => decide (k <:+: u.map Char.toLower))

theorem dropLit?_eq_some {p s r : List Char} : dropLit? p s = some r ↔ s = p ++ r := by
  constructor
  · intro h
    unfold dropLit? at h
    by_cases hp : p.isPrefixOf s
    · simp only [hp, if_true, Option.some.injEq] at h
      obtain ⟨t, ht⟩ := List.isPrefixOf_iff_prefix.mp hp
      subst h
      rw [← ht, List.drop_left]
    · simp [hp] at h
  · intro h
    subst h
    unfold dropLit?
    rw [if_pos (List.isPrefixOf_iff_prefix.mpr (List.prefix_append p r))]
    rw [List.drop_left]

theorem schemeSplit_eq_some {s scheme r : List Char}
    (h : schemeSplit s = some (scheme, r)) :
    s = scheme ++ r ∧ (scheme = "https://".data ∨ scheme = "http://".data) := by
  unfold schemeSplit at h
  cases h1 : dropLit? "https://".data s with
  | some t =>
    rw [h1] at h
    simp only [Option.some.injEq, Prod.mk.injEq] at h
    obtain ⟨hA, hB⟩ := h
    subst hA; subst hB
    exact ⟨dropLit?_eq_some.mp h1, Or.inl rfl⟩
  | none =>
    rw [h1] at h
    cases h2 : dropLit? "http://".data s with
    | some t =>
      rw [h2] at h
      simp only [Option.some.injEq, Prod.mk.injEq] at h
      obtain ⟨hA, hB⟩ := h
      subst hA; subst hB
      exact ⟨dropLit?_eq_some.mp h2, Or.inr rfl⟩
    | none => rw [h2] at h; exact absurd h (by simp)

theorem schemeSplit_append_https (r : List Char) :
    schemeSplit ("https://".data ++ r) = some ("https://".data, r) := by
  unfold schemeSplit
  rw [dropLit?_eq_some.mpr rfl]

theorem schemeSplit_append_http (r : List Char) :
    schemeSplit ("http://".data ++ r) = some ("http://".data, r) := by
  have h1 : dropLit? "https://".data ("http://".data ++ r) = none := by
    unfold dropLit?
    rw [if_neg]
    intro hp
    obtain ⟨t, ht⟩ := List.isPrefixOf_iff_prefix.mp hp
    have : "https://".data[4]? = ("http://".data ++ r)[4]? := by
      rw [← ht]; rfl
    simp [List.getElem?_append_left] at this
  unfold schemeSplit
  rw [h1, dropLit?_eq_some.mpr rfl]

namespace GetSuburl

/-- `parse_cookie_string` (get_suburl.py, lines 84-91): split on `;`,
keep items containing `=`, and build a dict mapping
`item.split('=')[0].strip()` to `item.split('=')[1].strip()`.
The dict is modelled as an association list with Python's
last-assignment-wins update. -/
def dictInsert (d : List (List Char × List Char)) (k v : List Char) :
    List (List Char × List Char) :=
  if d.any (fun p => p.1 = k) then
    d.map (fun p => if p.1 = k then (k, v) else p)
  else d ++ [(k, v)]

/-- The key/value a single cookie item contributes:
`(item.split('=')[0].strip(), item.split('=')[1].strip())`. -/
def cookieItemEntry (item : List Char) : List Char × List Char :=
  (pyStrip ((pySplit '=' item).getD 0 []), pyStrip ((pySplit '=' item).getD 1 []))

/-- `parse_cookie_string` (get_suburl.py, lines 84-91). -/
def parse_cookie_string (s : List Char) : List (List Char × List Char) :=
  if s.isEmpty then []
  else
    ((pySplit ';' s).filter (fun item => item.contains '=')).foldl
      (fun d item => dictInsert d (cookieItemEntry item).1 (cookieItemEntry item).2) []

/-- Single-position matcher for the strategy-1 regex of `extract_url_re`
(get_suburl.py, line 95): `value="(https?://[^"]+\?mu=pat)"`.
Since `[^"]+` cannot cross a quote, the closing `"` of the pattern is
necessarily the first quote after the scheme, and greedy backtracking
leaves exactly `?mu=pat` at the segment's end; hence the position
matches iff the quote-free segment after the scheme ends in `?mu=pat`
preceded by at least one character, and the captured group is the
scheme followed by that whole segment. -/
def matchValueAt (pat s : List Char) : Option (List Char) :=
  match dropLit? "value=\"".data s with
  | none => none
  | some s1 =>
    match schemeSplit s1 with
    | none => none
    | some (scheme, s2) =>
      match s2.drop ((s2.takeWhile (fun c => c != '"')).length) with
      | '"' :: _ =>
        if ("?mu=".data ++ pat).isSuffixOf (s2.takeWhile (fun c => c != '"'))
            && decide (("?mu=".data ++ pat).length < (s2.takeWhile (fun c => c != '"')).length)
        then some (scheme ++ s2.takeWhile (fun c => c != '"'))
        else none
      | _ => none

/-- `extract_url_re` (get_suburl.py, lines 93-100). -/
def extract_url_re (html_content sub_pattern : List Char) : Option (List Char) :=
  reSearch (matchValueAt sub_pattern) html_content

/-- The character class `[^\s<>"']` of `pattern1` in
`extract_subscription_url` (get_suburl.py, line 107). -/
def classC (c : Char) : Bool :=
  !(isPySpace c || c = '<' || c = '>' || c = '"' || c = '\'')

/-- Single-position matcher for `pattern1`
(`https?://[^\s<>"']+(?:/link/|/subscribe|/sub)[^\s<>"']*`,
get_suburl.py, line 107).  All three alternatives and both repeated
classes lie inside `[^\s<>"']`, and the trailing `[^\s<>"']*` is greedy
and last, so a position matches iff some offset `i ≥ 1` of the maximal
class run `R` after the scheme carries one of the alternatives, and the
whole match is then the scheme followed by all of `R`. -/
def pattern1At (s : List Char) : Option (List Char) :=
  match schemeSplit s with
  | none => none
  | some (scheme, rest) =>
    if (List.range (rest.takeWhile classC).length).any (fun i =>
        decide (1 ≤ i) &&
          ("/link/".data.isPrefixOf ((rest.takeWhile classC).drop i)
            || "/subscribe".data.isPrefixOf ((rest.takeWhile classC).drop i)
            || "/sub".data.isPrefixOf ((rest.takeWhile classC).drop i)))
    then some (scheme ++ rest.takeWhile classC)
    else none

/-- Single-position matcher for `pattern2` (`href="(https?://[^"]+)"`,
get_suburl.py, line 113), returning the captured URL and the remainder
of the text after the whole match (for `re.finditer`'s non-overlapping
scan).  As in `matchValueAt`, the closing quote is the first quote
after the scheme and the group is the scheme plus the quote-free run,
which must be non-empty. -/
def hrefMatchAt (s : List Char) : Option (List Char × List Char) :=
  match dropLit? "href=\"".data s with
  | none => none
  | some s1 =>
    match schemeSplit s1 with
    | none => none
    | some (scheme, s2) =>
      match s2.drop ((s2.takeWhile (fun c => c != '"')).length) with
      | '"' :: after =>
        if (s2.takeWhile (fun c => c != '"')).isEmpty then none
        else some (scheme ++ s2.takeWhile (fun c => c != '"'), after)
      | _ => none

theorem hrefMatchAt_after_lt {s u after : List Char}
    (h : hrefMatchAt s = some (u, after)) : after.length < s.length := by
  unfold hrefMatchAt at h
  split at h
  · exact absurd h (by simp)
  · rename_i s1 h1
    split at h
    · exact absurd h (by simp)
    · rename_i scheme s2 h2
      have hs : s = "href=\"".data ++ s1 := dropLit?_eq_some.mp h1
      have hs1 : s1 = scheme ++ s2 := (schemeSplit_eq_some h2).1
      split at h
      · rename_i rest h3
        split at h
        · exact absurd h (by simp)
        · simp only [Option.some.injEq, Prod.mk.injEq] at h
          have hrest : after = rest := h.2.symm
          have hd : (s2.drop ((s2.takeWhile (fun c => c != '"')).length)).length ≤ s2.length := by
            simp
          rw [h3] at hd
          subst hrest
          simp only [List.length_cons] at hd
          have : s.length = 6 + s1.length := by rw [hs]; simp; omega
          have : s1.length = scheme.length + s2.length := by rw [hs1]; simp
          omega
      · exact absurd h (by simp)

end GetSuburl

namespace GetSuburl

/-- Fuel-indexed form of the `re.finditer(pattern2, html)` loop (the
fuel, strictly larger than the text length, only serves structural
termination: every step strictly shortens the text, so the fuel is
never exhausted).  A failed position advances by one character; a
successful match continues after its end. -/
def pattern2ScanF : Nat → List Char → Option (List Char)
  | 0, _ => none
  | fuel + 1, s =>
    match hrefMatchAt s with
    | some (url, after) => if kwIn url then some url else pattern2ScanF fuel after
    | none =>
      match s with
      | [] => none
      | _ :: t => pattern2ScanF fuel t

/-- The `re.finditer(pattern2, html)` loop of `extract_subscription_url`
(get_suburl.py, lines 112-117): visit the non-overlapping matches of
`href="(https?://[^"]+)"` from left to right and return the first
captured URL passing the keyword test. -/
def pattern2Scan (s : List Char) : Option (List Char) :=
  pattern2ScanF (s.length + 1) s

/-- Fuel-indexed companion of `pattern2Scan` collecting every captured
URL instead of stopping at the first keyword hit. -/
def pattern2MatchesF : Nat → List Char → List (List Char)
  | 0, _ => []
  | fuel + 1, s =>
    match hrefMatchAt s with
    | some (url, after) => url :: pattern2MatchesF fuel after
    | none =>
      match s with
      | [] => []
      | _ :: t => pattern2MatchesF fuel t

/-- The list of all URLs captured by the non-overlapping matches of
`pattern2`, in document order (the match sequence `re.finditer`
produces). -/
def pattern2Matches (s : List Char) : List (List Char) :=
  pattern2MatchesF (s.length + 1) s

end GetSuburl

/-- Attribute-value parser for the anchor model: after the attribute
name, optional whitespace, `=`, optional whitespace, then a
double-quoted, single-quoted or unquoted value. -/
def parseAttrValue (l : List Char) : Option (List Char) :=
  match (l.dropWhile isPySpace) with
  | '=' :: l2 =>
    match l2.dropWhile isPySpace with
    | '"' :: v => some (v.takeWhile (fun c => c != '"'))
    | '\'' :: v => some (v.takeWhile (fun c => c != '\''))
    | l3 => some (l3.takeWhile (fun c => !isPySpace c))
  | _ => none

/-- Scan the inside of a tag for an `href` attribute (name matched
case-insensitively, preceded by whitespace). -/
def extractHrefAttr : List Char → Option (List Char)
  | [] => none
  | c :: rest =>
    if isPySpace c && "href".data.isPrefixOf ((rest.take 4).map Char.toLower) then
      match parseAttrValue (rest.drop 4) with
      | some v => some v
      | none => extractHrefAttr rest
    else extractHrefAttr rest

/-- A character ending an HTML tag name. -/
def isTagNameEnd (c : Char) : Bool :=
  isPySpace c || c = '>' || c = '/'

/-- Fuel-indexed tag scanner for the anchor model (the fuel, strictly
larger than the text length, only serves structural termination: every
step strictly shortens the text, so the fuel is never exhausted). -/
def findAnchorHrefsF : Nat → List Char → List (List Char)
  | 0, _ => []
  | fuel + 1, s =>
    match s with
    | [] => []
    | '<' :: rest =>
      match rest with
      | [] => []
      | c :: rest2 =>
        if (c = 'a' || c = 'A')
            && (match rest2.head? with | some d => isTagNameEnd d | none => false) then
          match extractHrefAttr (rest2.takeWhile (fun x => x != '>')) with
          | some h =>
            h :: findAnchorHrefsF fuel (rest2.drop ((rest2.takeWhile (fun x => x != '>')).length + 1))
          | none => findAnchorHrefsF fuel (rest2.drop ((rest2.takeWhile (fun x => x != '>')).length + 1))
        else findAnchorHrefsF fuel (c :: rest2)
    | _ :: rest => findAnchorHrefsF fuel rest

/-- Model of `BeautifulSoup(html).find_all('a', href=True)` restricted
to well-formed markup: the `href` attribute values of the `<a>` tags in
document order.  The model does not reproduce the library's recovery of
malformed markup, entity decoding, or quotes containing `>`. -/
def findAnchorHrefs (s : List Char) : List (List Char) :=
  findAnchorHrefsF (s.length + 1) s

/-- The schemes for which Python's `urljoin` performs relative
resolution (`urllib.parse.uses_relative`, minus the empty scheme). -/
def usesRelative : List (List Char) :=
  ["ftp".data, "http".data, "gopher".data, "nntp".data, "imap".data,
   "wais".data, "file".data, "https".data, "shttp".data, "mms".data,
   "prospero".data, "rtsp".data, "rtspu".data, "sftp".data, "svn".data,
   "svn+ssh".data, "ws".data, "wss".data]

/-- A valid URL scheme per `urllib.parse`: a letter followed by
letters, digits, `+`, `-` or `.`. -/
def isValidScheme (s : List Char) : Bool :=
  match s with
  | [] => false
  | c :: rest => c.isAlpha && rest.all (fun d => d.isAlphanum || d = '+' || d = '-' || d = '.')

/-- Model of `urllib.parse.urljoin(base, href)` for the case the source
uses it on: an `href` beginning with `/`.  The base's scheme and
authority are kept and the href replaces the path-and-after; an href
beginning with `//` keeps only the scheme.  Dot-segment normalisation
and bases whose authority is absent are not modelled. -/
def urljoinModel (base href : List Char) : List Char :=
  if (base.takeWhile (fun c => c != ':')).length < base.length
      && isValidScheme (base.takeWhile (fun c => c != ':'))
      && usesRelative.contains ((base.takeWhile (fun c => c != ':')).map Char.toLower)
      && "//".data.isPrefixOf (base.drop ((base.takeWhile (fun c => c != ':')).length + 1)) then
    if "//".data.isPrefixOf href then
      ((base.takeWhile (fun c => c != ':')).map Char.toLower) ++ ':' :: href
    else
      ((base.takeWhile (fun c => c != ':')).map Char.toLower) ++ "://".data
        ++ ((base.drop ((base.takeWhile (fun c => c != ':')).length + 3)).takeWhile
              (fun c => c != '/' && c != '?' && c != '#'))
        ++ href
  else href

namespace GetSuburl

/-- The BeautifulSoup anchor loop of `extract_subscription_url`
(get_suburl.py, lines 124-130): for each anchor href containing a
keyword, resolve a leading-slash href against the base URL, and return
it when the (possibly resolved) href starts with `http`; otherwise
continue with the next anchor. -/
def soupLoop (base : List Char) : List (List Char) → Option (List Char)
  | [] => none
  | h :: t =>
    if kwIn h then
      if "http".data.isPrefixOf (if h.head? = some '/' then urljoinModel base h else h) then
        some (if h.head? = some '/' then urljoinModel base h else h)
      else soupLoop base t
    else soupLoop base t

end GetSuburl

namespace GetSuburl

/-- The BeautifulSoup strategy (方法3) of `extract_subscription_url`
(get_suburl.py, lines 119-133).  The enclosing `try/except` swallows
any parser failure and falls through to `None`; the embedding is total,
so the strategy is a function into `Option`. -/
def soup_scan (html_content base_url : List Char) : Option (List Char) :=
  soupLoop base_url (findAnchorHrefs html_content)

/-- `extract_subscription_url` (get_suburl.py, lines 102-135): the
three fallback strategies in source order, first success wins. -/
def extract_subscription_url (html_content base_url : List Char) : Option (List Char) :=
  match reSearch pattern1At html_content with
  | some u => some u
  | none =>
    match pattern2Scan html_content with
    | some u => some u
    | none => soup_scan html_content base_url

/-- `get_subscription_from_airport` (get_suburl.py, lines 28-82),
with the network turned into a parameter: `fetch` is the outcome of
`requests.get` (`none` for a raised exception, otherwise status code
and body).  On a 200 response the extraction chain runs: strategy 1
(`extract_url_re` with pattern `clash`), then, only when it produced
nothing, `extract_subscription_url`. -/
def get_subscription_from_airport (airport_url : List Char)
    (fetch : Option (Nat × List Char)) : Option (List Char) :=
  match fetch with
  | none => none
  | some (status, text) =>
    if status = 200 then
      match extract_url_re text "clash".data with
      | some u => some u
      | none => extract_subscription_url text airport_url
    else none

end GetSuburl

/-- The base64 alphabet character for a 6-bit value. -/
def b64Char (n : Nat) : Char :=
  if n < 26 then Char.ofNat ('A'.toNat + n)
  else if n < 52 then Char.ofNat ('a'.toNat + (n - 26))
  else if n < 62 then Char.ofNat ('0'.toNat + (n - 52))
  else if n = 62 then '+'
  else '/'

/-- The 6-bit value of a base64 alphabet character. -/
def b64val (c : Char) : Option Nat :=
  if 'A' ≤ c ∧ c ≤ 'Z' then some (c.toNat - 65)
  else if 'a' ≤ c ∧ c ≤ 'z' then some (c.toNat - 97 + 26)
  else if '0' ≤ c ∧ c ≤ '9' then some (c.toNat - 48 + 52)
  else if c = '+' then some 62
  else if c = '/' then some 63
  else none

/-- `base64.b64encode` on a byte string, producing the canonical padded
base64 text. -/
def b64encode : List Nat → List Char
  | [] => []
  | [a] => [b64Char (a / 4), b64Char (a % 4 * 16), '=', '=']
  | [a, b] => [b64Char (a / 4), b64Char (a % 4 * 16 + b / 16), b64Char (b % 16 * 4), '=']
  | a :: b :: d :: rest =>
    b64Char (a / 4) :: b64Char (a % 4 * 16 + b / 16)
      :: b64Char (b % 16 * 4 + d / 64) :: b64Char (d % 64)
      :: b64encode rest

/-- Quad-wise base64 decoding of the relevant characters (alphabet and
padding) of the input.  Mirrors CPython's `binascii.a2b_base64` in
non-strict mode on its everyday inputs: data characters are consumed
four at a time, a quad ending in `=` or `==` yields the final two or
one bytes and ends the decode, and a quad count that does not fit
(leftover of 1-3 characters, or `=` in the first two quad positions)
is an error. -/
def b64decodeQuads : List Char → Option (List Nat)
  | [] => some []
  | a :: b :: c :: d :: rest =>
    match b64val a, b64val b with
    | some va, some vb =>
      if c = '=' then
        if d = '=' then some [va * 4 + vb / 16] else none
      else
        match b64val c with
        | some vc =>
          if d = '=' then some [va * 4 + vb / 16, vb % 16 * 16 + vc / 4]
          else
            match b64val d with
            | some vd =>
              (b64decodeQuads rest).map
                (fun t => (va * 4 + vb / 16) :: (vb % 16 * 16 + vc / 4) :: (vc % 4 * 64 + vd) :: t)
            | none => none
        | none => none
    | _, _ => none
  | _ => none

/-- `base64.b64decode` applied to a `str`: the string must be ASCII
(otherwise the implicit `ascii` encode raises), characters outside the
alphabet and padding are discarded, and the remainder is decoded
quad-wise. -/
def b64decodePy (s : List Char) : Option (List Nat) :=
  if s.any (fun c => 128 ≤ c.toNat) then none
  else b64decodeQuads (s.filter (fun c => (b64val c).isSome || c = '='))

/-- UTF-8 encoding of one scalar value (a Lean `Char` is always a valid
scalar, so the four-range case split is total). -/
def utf8EncodeChar (c : Char) : List Nat :=
  if c.toNat < 0x80 then [c.toNat]
  else if c.toNat < 0x800 then [0xC0 + c.toNat / 64, 0x80 + c.toNat % 64]
  else if c.toNat < 0x10000 then
    [0xE0 + c.toNat / 4096, 0x80 + c.toNat / 64 % 64, 0x80 + c.toNat % 64]
  else
    [0xF0 + c.toNat / 262144, 0x80 + c.toNat / 4096 % 64,
     0x80 + c.toNat / 64 % 64, 0x80 + c.toNat % 64]

/-- `str.encode('utf-8')`. -/
def utf8Encode (s : List Char) : List Nat :=
  (s.map utf8EncodeChar).join

/-- Fuel-indexed strict UTF-8 decoder (the fuel, at least the byte
count, only serves structural termination: every step consumes at
least one byte, so the fuel is never exhausted; `utf8DecodeF_mono`
makes this exact). -/
def utf8DecodeF : Nat → List Nat → Option (List Char)
  | _, [] => some []
  | 0, _ :: _ => none
  | fuel + 1, b :: rest =>
    if b < 0x80 then (utf8DecodeF fuel rest).map (fun t => Char.ofNat b :: t)
    else if b < 0xC2 then none
    else if b < 0xE0 then
      match rest with
      | b1 :: rest1 =>
        if 0x80 ≤ b1 && b1 < 0xC0 then
          (utf8DecodeF fuel rest1).map (fun t => Char.ofNat ((b - 0xC0) * 64 + (b1 - 0x80)) :: t)
        else none
      | [] => none
    else if b < 0xF0 then
      match rest with
      | b1 :: b2 :: rest2 =>
        if (0x80 ≤ b1 && b1 < 0xC0) && (0x80 ≤ b2 && b2 < 0xC0) then
          if 0x800 ≤ (b - 0xE0) * 4096 + (b1 - 0x80) * 64 + (b2 - 0x80)
              && ((b - 0xE0) * 4096 + (b1 - 0x80) * 64 + (b2 - 0x80) < 0xD800
                  || 0xE000 ≤ (b - 0xE0) * 4096 + (b1 - 0x80) * 64 + (b2 - 0x80)) then
            (utf8DecodeF fuel rest2).map
              (fun t => Char.ofNat ((b - 0xE0) * 4096 + (b1 - 0x80) * 64 + (b2 - 0x80)) :: t)
          else none
        else none
      | _ => none
    else if b < 0xF5 then
      match rest with
      | b1 :: b2 :: b3 :: rest3 =>
        if (0x80 ≤ b1 && b1 < 0xC0) && (0x80 ≤ b2 && b2 < 0xC0) && (0x80 ≤ b3 && b3 < 0xC0) then
          if 0x10000 ≤ (b - 0xF0) * 262144 + (b1 - 0x80) * 4096 + (b2 - 0x80) * 64 + (b3 - 0x80)
              && (b - 0xF0) * 262144 + (b1 - 0x80) * 4096 + (b2 - 0x80) * 64 + (b3 - 0x80)
                  < 0x110000 then
            (utf8DecodeF fuel rest3).map
              (fun t =>
                Char.ofNat ((b - 0xF0) * 262144 + (b1 - 0x80) * 4096 + (b2 - 0x80) * 64
                  + (b3 - 0x80)) :: t)
          else none
        else none
      | _ => none
    else none

/-- `bytes.decode('utf-8')` (strict): rejects truncated sequences,
stray continuation bytes, overlong forms, surrogates and values above
`0x10FFFF`. -/
def utf8Decode (bs : List Nat) : Option (List Char) :=
  utf8DecodeF bs.length bs

/-- The bytes that `urllib.parse.quote` leaves unescaped with
`safe=''`: ASCII letters, digits, `_`, `.`, `-`, `~`. -/
def isSafeByte (b : Nat) : Bool :=
  (65 ≤ b && b ≤ 90) || (97 ≤ b && b ≤ 122) || (48 ≤ b && b ≤ 57)
    || b = 95 || b = 46 || b = 45 || b = 126

/-- Uppercase hexadecimal digit, as `urllib.parse.quote` emits. -/
def hexDigit (n : Nat) : Char :=
  if n < 10 then Char.ofNat ('0'.toNat + n) else Char.ofNat ('A'.toNat + (n - 10))

/-- The value of a hexadecimal digit character. -/
def unhex (c : Char) : Option Nat :=
  if '0' ≤ c ∧ c ≤ '9' then some (c.toNat - 48)
  else if 'A' ≤ c ∧ c ≤ 'F' then some (c.toNat - 65 + 10)
  else if 'a' ≤ c ∧ c ≤ 'f' then some (c.toNat - 97 + 10)
  else none

/-- `urllib.parse.quote_plus(s, safe='')` on one UTF-8 byte: space
becomes `+`, safe bytes stand for themselves, everything else is
percent-escaped. -/
def quotePlusByte (b : Nat) : List Char :=
  if b = 32 then ['+']
  else if isSafeByte b then [Char.ofNat b]
  else ['%', hexDigit (b / 16), hexDigit (b % 16)]

/-- `urllib.parse.quote_plus(s, safe='')`: encode to UTF-8 and escape
byte-wise. -/
def quotePlus (s : List Char) : List Char :=
  ((utf8Encode s).map quotePlusByte).join

/-- Percent-decoding to bytes (`+` becomes space), strict: a broken
escape is an error (CPython instead leaves it verbatim, a case the
round-trip theorems never hit). -/
def percentDecode : List Char → Option (List Nat)
  | [] => some []
  | c :: rest =>
    if c = '%' then
      match rest with
      | h :: l :: rest2 =>
        match unhex h, unhex l with
        | some a, some b => (percentDecode rest2).map (fun t => (a * 16 + b) :: t)
        | _, _ => none
      | _ => none
    else if c = '+' then (percentDecode rest).map (fun t => 32 :: t)
    else (percentDecode rest).map (fun t => c.toNat :: t)

/-- `urllib.parse.unquote_plus` with strict UTF-8 decoding of the
percent-decoded bytes. -/
def unquotePlus (s : List Char) : Option (List Char) :=
  (percentDecode s).bind utf8Decode

namespace Subcon

/-- The character class `[^\s<>"]` of the three patterns in
`subcon.py`'s `get_subscription_from_airport` (lines 68-72). -/
def classE (c : Char) : Bool :=
  !(isPySpace c || c = '<' || c = '>' || c = '"')

/-- Single-position matcher for `https?://[^\s<>"]+/link/[^\s<>"?]+`
(subcon.py, line 69).  All parts lie inside `[^\s<>"]`, so the match
stays inside the maximal class run `R` after the scheme; the first
repetition is greedy, so the chosen split is the last offset `i ≥ 1`
where `/link/` occurs followed by at least one class character that is
not `?`, and the trailing repetition then extends to the next `?` or
the end of `R`. -/
def matchLinkAt (s : List Char) : Option (List Char) :=
  match schemeSplit s with
  | none => none
  | some (scheme, rest) =>
    match (List.range (rest.takeWhile classE).length).foldl
        (fun acc i =>
          if decide (1 ≤ i) && "/link/".data.isPrefixOf ((rest.takeWhile classE).drop i)
              && !(((rest.takeWhile classE).drop (i + 6)).takeWhile (fun c => c != '?')).isEmpty
          then some i else acc) none with
    | some i =>
      some (scheme ++ (rest.takeWhile classE).take i ++ "/link/".data
        ++ ((rest.takeWhile classE).drop (i + 6)).takeWhile (fun c => c != '?'))
    | none => none

/-- Single-position matcher for `https?://[^\s<>"]+kw[^\s<>"]*`
(subcon.py, lines 70-71, `kw` being `subscribe` or `sub`): as the
trailing repetition is greedy, last, and unconstrained inside the
class, a position matches iff the keyword occurs at some offset `i ≥ 1`
of the maximal class run after the scheme, and the whole match is the
scheme followed by that entire run. -/
def matchKwAt (kw : List Char) (s : List Char) : Option (List Char) :=
  match schemeSplit s with
  | none => none
  | some (scheme, rest) =>
    if (List.range (rest.takeWhile classE).length).any
        (fun i => decide (1 ≤ i) && kw.isPrefixOf ((rest.takeWhile classE).drop i))
    then some (scheme ++ rest.takeWhile classE)
    else none

/-- The `re.search(pattern, href)` test of the anchor loop (subcon.py,
lines 77-85): does any of the three patterns match somewhere in the
href? -/
def anyPatternIn (h : List Char) : Bool :=
  (reSearch matchLinkAt h).isSome
    || (reSearch (matchKwAt "subscribe".data) h).isSome
    || (reSearch (matchKwAt "sub".data) h).isSome

/-- The fallback logic of `get_subscription_from_airport` (subcon.py,
lines 67-101): first the anchor hrefs in document order, returning the
first one some pattern matches in; then the page text, searched with
each pattern in turn. -/
def fallback_scan (hrefs : List (List Char)) (page_text : List Char) : Option (List Char) :=
  match hrefs.find? anyPatternIn with
  | some h => some h
  | none =>
    match reSearch matchLinkAt page_text with
    | some m => some m
    | none =>
      match reSearch (matchKwAt "subscribe".data) page_text with
      | some m => some m
      | none => reSearch (matchKwAt "sub".data) page_text

/-- The exceptions of the embedded `try` block. -/
inductive PyExc where
  | debugStop
deriving DecidableEq

/-- The body of `get_subscription_from_airport`'s `try` block after a
successful fetch (subcon.py, lines 62-101): the source raises
`Exception("Debugging stop")` (line 65) before the fallback logic,
which is translated here as written. -/
def extract_attempt (html : List Char) : Except PyExc (Option (List Char)) := do
  throw PyExc.debugStop
  pure (fallback_scan (findAnchorHrefs html) html)

/-- `get_subscription_from_airport` (subcon.py, lines 46-108) with the
network as a parameter: `none` models a `requests.RequestException`
(including `raise_for_status`), `some html` a successful fetch.  Both
`except` arms return `None`. -/
def get_subscription_from_airport (fetch : Option (List Char)) : Option (List Char) :=
  match fetch with
  | none => none
  | some html =>
    match extract_attempt html with
    | Except.ok r => r
    | Except.error _ => none

/-- The decode step of `get_subscription_content` (subcon.py, lines
119-126): try `base64.b64decode(text).decode('utf-8')`; on any failure
return the body unchanged. -/
def decode_step (body : List Char) : List Char :=
  match (b64decodePy body).bind utf8Decode with
  | some content => content
  | none => body

/-- `get_subscription_content` (subcon.py, lines 110-130) with the
fetch as a parameter (`none` models a raised `RequestException`). -/
def get_subscription_content (fetch : Option (List Char)) : Option (List Char) :=
  match fetch with
  | none => none
  | some body => some (decode_step body)

/-- An airport entry as `merge_all_nodes` reads it: `airport.get('url')`
and `airport.get('cookie')` may be absent. -/
structure Airport where
  name : List Char
  url : Option (List Char)
  cookie : Option (List Char)

/-- `merge_all_nodes` (subcon.py, lines 132-177), with the two network
stages as oracle parameters: `gs url cookie` is the outcome of
`get_subscription_from_airport`, `gc sub_url` of
`get_subscription_content`.  Local nodes are split on `|`, stripped,
and appended when non-empty; each airport with a present, non-empty url
and cookie then contributes its content's non-empty stripped lines. -/
def merge_all_nodes (gs : List Char → List Char → Option (List Char))
    (gc : List Char → Option (List Char))
    (airports : List Airport) (local_nodes : List Char) : List Char :=
  joinLines (airports.foldl
    (fun acc ap =>
      match ap.url, ap.cookie with
      | some u, some ck =>
        if u.isEmpty || ck.isEmpty then acc
        else
          match gs u ck with
          | none => acc
          | some su =>
            match gc su with
            | none => acc
            | some content =>
              acc ++ ((pySplitlines content).filter
                  (fun line => !(pyStrip line).isEmpty)).map pyStrip
      | _, _ => acc)
    (if local_nodes.isEmpty then []
     else (pySplit '|' local_nodes).foldl
       (fun acc node => if (pyStrip node).isEmpty then acc else acc ++ [pyStrip node]) []))

/-- The hard-coded remote rule-set URL of `generate_subconvert_url`
(subcon.py, line 191). -/
def configRuleUrl : List Char :=
  "https://raw.githubusercontent.com/ACL4SSR/ACL4SSR/master/Clash/config/ACL4SSR_Online.ini".data

/-- The `params` dict of `generate_subconvert_url` (subcon.py, lines
187-199) in insertion order, with `url` carrying the base64 of the
UTF-8 encoded subscription content (line 184). -/
def subconvertParams (subscription_content output_format : List Char) :
    List (List Char × List Char) :=
  [("target".data, output_format),
   ("url".data, b64encode (utf8Encode subscription_content)),
   ("insert".data, "false".data),
   ("config".data, configRuleUrl),
   ("emoji".data, "true".data),
   ("list".data, "false".data),
   ("udp".data, "true".data),
   ("tfo".data, "false".data),
   ("scv".data, "false".data),
   ("fdn".data, "false".data),
   ("sort".data, "false".data)]

/-- `urllib.parse.urlencode(params)`: `quote_plus` each key and value,
join with `=` and `&`. -/
def urlencodePairs (ps : List (List Char × List Char)) : List Char :=
  List.intercalate ['&'] (ps.map (fun p => quotePlus p.1 ++ '=' :: quotePlus p.2))

/-- `generate_subconvert_url` (subcon.py, lines 179-204), the
conversion-service base URL (environment-configured `SUBCONVERT_URL`)
as a parameter. -/
def generate_subconvert_url (subconvert_base subscription_content output_format : List Char) :
    List Char :=
  subconvert_base ++ '?' :: urlencodePairs (subconvertParams subscription_content output_format)

end Subcon

theorem takeWhile_append_all {p : Char → Bool} {l : List Char} (r : List Char)
    (h : ∀ a ∈ l, p a = true) : (l ++ r).takeWhile p = l ++ r.takeWhile p := by
  induction l with
  | nil => rfl
  | cons c t ih =>
    have hc : p c = true := h c (by simp)
    simp only [List.cons_append, List.takeWhile_cons, hc, if_true]
    rw [ih (fun a ha => h a (by simp [ha]))]

theorem reSearch_of_match {f : List Char → Option (List Char)} {s r : List Char}
    (h : f s = some r) : reSearch f s = some r := by
  cases s with
  | nil => simpa [reSearch] using h
  | cons c t => simp [reSearch, h]

theorem reSearch_append {f : List Char → Option (List Char)} (pre s : List Char)
    (h : ∀ i < pre.length, f ((pre ++ s).drop i) = none) :
    reSearch f (pre ++ s) = reSearch f s := by
  induction pre with
  | nil => rfl
  | cons c t ih =>
    have h0 : f (c :: (t ++ s)) = none := by simpa using h 0 (by simp)
    have step : reSearch f (c :: (t ++ s)) = reSearch f (t ++ s) := by
      simp [reSearch, h0]
    simp only [List.cons_append]
    rw [step]
    exact ih (fun i hi => by
      have := h (i + 1) (by simpa using Nat.succ_lt_succ hi)
      simpa using this)

namespace GetSuburl

theorem matchValueAt_hit (pat scheme x post : List Char)
    (hscheme : scheme = "https://".data ∨ scheme = "http://".data)
    (hx : x ≠ []) (hq : '"' ∉ x) (hqp : '"' ∉ pat) :
    matchValueAt pat ("value=\"".data ++ (scheme ++ (x ++ ("?mu=".data ++ (pat ++ '"' :: post)))))
      = some (scheme ++ (x ++ ("?mu=".data ++ pat))) := by
  have h1 : dropLit? "value=\"".data
      ("value=\"".data ++ (scheme ++ (x ++ ("?mu=".data ++ (pat ++ '"' :: post)))))
      = some (scheme ++ (x ++ ("?mu=".data ++ (pat ++ '"' :: post)))) :=
    dropLit?_eq_some.mpr rfl
  have hseg : ∀ a ∈ x ++ ("?mu=".data ++ pat), (a != '"') = true := by
    intro a ha
    simp only [List.mem_append] at ha
    simp only [bne_iff_ne, ne_eq]
    rcases ha with ha | ha | ha
    · intro he; exact hq (he ▸ ha)
    · fin_cases ha <;> decide
    · intro he; exact hqp (he ▸ ha)
  have htake : ((x ++ ("?mu=".data ++ pat)) ++ '"' :: post).takeWhile (fun c => c != '"')
      = x ++ ("?mu=".data ++ pat) := by
    rw [takeWhile_append_all _ hseg]
    simp [List.takeWhile_cons]
  have hdrop : ((x ++ ("?mu=".data ++ pat)) ++ '"' :: post).drop
      (x ++ ("?mu=".data ++ pat)).length = '"' :: post := List.drop_left _ _
  have hassoc : x ++ ("?mu=".data ++ (pat ++ '"' :: post))
      = (x ++ ("?mu=".data ++ pat)) ++ '"' :: post := by simp
  have hcond : (("?mu=".data ++ pat).isSuffixOf (x ++ ("?mu=".data ++ pat))
      && decide (("?mu=".data ++ pat).length < (x ++ ("?mu=".data ++ pat)).length)) = true := by
    rw [Bool.and_eq_true]
    constructor
    · exact List.isSuffixOf_iff_suffix.mpr (List.suffix_append x _)
    · have : 0 < x.length := List.length_pos.mpr hx
      simp
      omega
  unfold matchValueAt
  rw [h1]
  dsimp only
  rcases hscheme with hs | hs <;> subst hs
  · rw [hassoc, schemeSplit_append_https]
    dsimp only
    rw [htake, hdrop]
    dsimp only
    simp [hcond, htake, hx]
  · rw [hassoc, schemeSplit_append_http]
    dsimp only
    rw [htake, hdrop]
    dsimp only
    simp [hcond, htake, hx]

end GetSuburl

/-- C1: for an HTML string whose first strategy-1 match is an attribute
`value="<http(s) URL>?mu=clash"`, `extract_url_re` with pattern `clash`
returns exactly that quoted URL, and the extraction chain of
`get_subscription_from_airport` returns it as strategy 1's result, so
none of the fallback strategies of `extract_subscription_url` is
evaluated (the chain only consults them when strategy 1 returns
nothing). -/
theorem c1_strategy1_exact (pre scheme x post base : List Char)
    (hscheme : scheme = "https://".data ∨ scheme = "http://".data)
    (hx : x ≠ []) (hq : '"' ∉ x)
    (hfirst : ∀ i < pre.length,
      GetSuburl.matchValueAt "clash".data
        ((pre ++ ("value=\"".data ++ (scheme ++ (x ++ ("?mu=clash".data ++ '"' :: post))))).drop i)
        = none) :
    GetSuburl.extract_url_re
        (pre ++ ("value=\"".data ++ (scheme ++ (x ++ ("?mu=clash".data ++ '"' :: post)))))
        "clash".data
      = some (scheme ++ (x ++ "?mu=clash".data))
    ∧ GetSuburl.get_subscription_from_airport base
        (some (200, pre ++ ("value=\"".data ++ (scheme ++ (x ++ ("?mu=clash".data ++ '"' :: post))))))
      = some (scheme ++ (x ++ "?mu=clash".data)) := by
  have hm := GetSuburl.matchValueAt_hit "clash".data scheme x post hscheme hx hq (by decide)
  have h1 : GetSuburl.extract_url_re
      (pre ++ ("value=\"".data ++ (scheme ++ (x ++ ("?mu=clash".data ++ '"' :: post)))))
      "clash".data = some (scheme ++ (x ++ "?mu=clash".data)) := by
    unfold GetSuburl.extract_url_re
    rw [reSearch_append pre _ hfirst]
    exact reSearch_of_match hm
  refine ⟨h1, ?_⟩
  unfold GetSuburl.get_subscription_from_airport
  dsimp only
  rw [if_pos rfl, h1]

theorem c1_strategy1_exact_witness :
    (("x/y".data : List Char) ≠ [] ∧ '"' ∉ "x/y".data
      ∧ (∀ i < ("<html><input ".data : List Char).length,
          GetSuburl.matchValueAt "clash".data
            (("<html><input ".data
              ++ ("value=\"".data ++ ("https://".data
                  ++ ("x/y".data ++ ("?mu=clash".data ++ '"' :: "></html>".data))))).drop i)
            = none))
    ∧ (GetSuburl.extract_url_re
        ("<html><input ".data
          ++ ("value=\"".data ++ ("https://".data
              ++ ("x/y".data ++ ("?mu=clash".data ++ '"' :: "></html>".data)))))
        "clash".data
      = some ("https://".data ++ ("x/y".data ++ "?mu=clash".data))
    ∧ GetSuburl.get_subscription_from_airport "https://air.example/dash".data
        (some (200, "<html><input ".data
          ++ ("value=\"".data ++ ("https://".data
              ++ ("x/y".data ++ ("?mu=clash".data ++ '"' :: "></html>".data))))))
      = some ("https://".data ++ ("x/y".data ++ "?mu=clash".data))) :=
  ⟨⟨by decide, by decide, by decide⟩,
    c1_strategy1_exact "<html><input ".data "https://".data "x/y".data "></html>".data
      "https://air.example/dash".data (Or.inl rfl) (by decide) (by decide) (by decide)⟩

/-- C2: when none of the four strategies finds a match (strategy 1
`extract_url_re`, the raw-text pattern, the href regex scan, and the
BeautifulSoup scan, whose parse failures the source swallows with
`try/except`), `extract_subscription_url` and the whole extraction
chain of `get_subscription_from_airport` return `None`; the embedding
is total, so no exception escapes. -/
theorem c2_all_strategies_none (html base : List Char)
    (h1 : GetSuburl.extract_url_re html "clash".data = none)
    (h2 : reSearch GetSuburl.pattern1At html = none)
    (h3 : GetSuburl.pattern2Scan html = none)
    (h4 : GetSuburl.soup_scan html base = none) :
    GetSuburl.extract_subscription_url html base = none
    ∧ GetSuburl.get_subscription_from_airport base (some (200, html)) = none := by
  have he : GetSuburl.extract_subscription_url html base = none := by
    unfold GetSuburl.extract_subscription_url
    rw [h2]
    dsimp only
    rw [h3]
    dsimp only
    exact h4
  refine ⟨he, ?_⟩
  unfold GetSuburl.get_subscription_from_airport
  dsimp only
  rw [if_pos rfl, h1]
  exact he

theorem c2_all_strategies_none_witness :
    (GetSuburl.extract_url_re "<p>hello</p>".data "clash".data = none
      ∧ reSearch GetSuburl.pattern1At "<p>hello</p>".data = none
      ∧ GetSuburl.pattern2Scan "<p>hello</p>".data = none
      ∧ GetSuburl.soup_scan "<p>hello</p>".data "https://e.example".data = none)
    ∧ (GetSuburl.extract_subscription_url "<p>hello</p>".data "https://e.example".data = none
      ∧ GetSuburl.get_subscription_from_airport "https://e.example".data
          (some (200, "<p>hello</p>".data)) = none) :=
  ⟨⟨by decide, by decide, by decide, by decide⟩,
    c2_all_strategies_none "<p>hello</p>".data "https://e.example".data
      (by decide) (by decide) (by decide) (by decide)⟩

namespace GetSuburl

theorem pattern2ScanF_succ (n : Nat) (s : List Char) :
    pattern2ScanF (n + 1) s
      = match hrefMatchAt s with
        | some (url, after) => if kwIn url then some url else pattern2ScanF n after
        | none =>
          match s with
          | [] => none
          | _ :: t => pattern2ScanF n t := rfl

theorem pattern2MatchesF_succ (n : Nat) (s : List Char) :
    pattern2MatchesF (n + 1) s
      = match hrefMatchAt s with
        | some (url, after) => url :: pattern2MatchesF n after
        | none =>
          match s with
          | [] => []
          | _ :: t => pattern2MatchesF n t := rfl

theorem pattern2ScanF_eq_find (fuel : Nat) :
    ∀ s, pattern2ScanF fuel s = (pattern2MatchesF fuel s).find? kwIn := by
  induction fuel with
  | zero => intro s; rfl
  | succ n ih =>
    intro s
    rw [pattern2ScanF_succ, pattern2MatchesF_succ]
    cases h : hrefMatchAt s with
    | some p =>
      obtain ⟨url, after⟩ := p
      dsimp only
      rw [List.find?_cons]
      cases hkb : kwIn url with
      | true => simp
      | false => simpa using ih after
    | none =>
      cases s with
      | nil => rfl
      | cons c t => dsimp only; exact ih t

theorem soupLoop_first_kw (base : List Char) :
    ∀ (hrefs : List (List Char)) (h : List Char),
    hrefs.find? kwIn = some h → h.head? = some '/' →
    "http".data.isPrefixOf (urljoinModel base h) = true →
    soupLoop base hrefs = some (urljoinModel base h) := by
  intro hrefs
  induction hrefs with
  | nil => intro h hf _ _; simp [List.find?] at hf
  | cons a t ih =>
    intro h hf hslash hhttp
    rw [List.find?_cons] at hf
    cases hkb : kwIn a with
    | true =>
      simp only [hkb, Option.some.injEq] at hf
      subst hf
      unfold soupLoop
      rw [if_pos hkb]
      have harg : (if a.head? = some '/' then urljoinModel base a else a)
          = urljoinModel base a := by
        rw [hslash]
        simp
      rw [harg, if_pos hhttp]
    | false =>
      simp only [hkb] at hf
      unfold soupLoop
      rw [if_neg (by simp [hkb])]
      exact ih h hf hslash hhttp

end GetSuburl

/-- C6 counterexample: on a page whose first hyperlink href containing
a keyword is the relative `/sub/a`, strategy 3 (the `pattern2` href
regex scan) does not return that first keyword-bearing hyperlink href:
its regex only visits double-quoted `http(s)://` hrefs, so it returns
the later absolute `https://x/link/b`. -/
theorem c6_first_hyperlink_counterexample :
    GetSuburl.pattern2Scan
        "<a href=\"/sub/a\"></a><a href=\"https://x/link/b\"></a>".data
      = some "https://x/link/b".data
    ∧ (findAnchorHrefs "<a href=\"/sub/a\"></a><a href=\"https://x/link/b\"></a>".data).find? kwIn
      = some "/sub/a".data
    ∧ ("https://x/link/b".data : List Char) ≠ "/sub/a".data :=
  ⟨by decide, by decide, by decide⟩

/-- C6 (amended): strategy 3 iterates, in document order, the
non-overlapping matches of `href="(https?://[^"]+)"` — the
double-quoted hyperlink hrefs that are absolute http(s) URLs — and
returns the first captured href containing `link`, `subscribe` or
`sub` as a case-insensitive substring, path segment or not. -/
theorem c6_pattern2_first_match (html : List Char) :
    GetSuburl.pattern2Scan html = (GetSuburl.pattern2Matches html).find? kwIn :=
  GetSuburl.pattern2ScanF_eq_find (html.length + 1) html

/-- C5: on a page where strategies 1-3 find nothing and the first
keyword-bearing anchor href starts with `/`, the BeautifulSoup strategy
resolves that href against the base URL with `urljoin` and, it being an
absolute http(s) URL, returns it — both from
`extract_subscription_url` and from the whole extraction chain. -/
theorem c5_soup_relative_resolution (html base h : List Char)
    (h1 : GetSuburl.extract_url_re html "clash".data = none)
    (h2 : reSearch GetSuburl.pattern1At html = none)
    (h3 : GetSuburl.pattern2Scan html = none)
    (hfind : (findAnchorHrefs html).find? kwIn = some h)
    (hslash : h.head? = some '/')
    (hhttp : "http".data.isPrefixOf (urljoinModel base h) = true) :
    GetSuburl.extract_subscription_url html base = some (urljoinModel base h)
    ∧ GetSuburl.get_subscription_from_airport base (some (200, html))
      = some (urljoinModel base h) := by
  have hsoup : GetSuburl.soup_scan html base = some (urljoinModel base h) :=
    GetSuburl.soupLoop_first_kw base (findAnchorHrefs html) h hfind hslash hhttp
  have he : GetSuburl.extract_subscription_url html base = some (urljoinModel base h) := by
    unfold GetSuburl.extract_subscription_url
    rw [h2]
    dsimp only
    rw [h3]
    dsimp only
    exact hsoup
  refine ⟨he, ?_⟩
  unfold GetSuburl.get_subscription_from_airport
  dsimp only
  rw [if_pos rfl, h1]
  exact he

theorem c5_soup_relative_resolution_witness :
    (GetSuburl.extract_url_re "<html><a href=\"/sub/abc\">x</a></html>".data "clash".data = none
      ∧ reSearch GetSuburl.pattern1At "<html><a href=\"/sub/abc\">x</a></html>".data = none
      ∧ GetSuburl.pattern2Scan "<html><a href=\"/sub/abc\">x</a></html>".data = none
      ∧ (findAnchorHrefs "<html><a href=\"/sub/abc\">x</a></html>".data).find? kwIn
        = some "/sub/abc".data
      ∧ ("/sub/abc".data : List Char).head? = some '/'
      ∧ "http".data.isPrefixOf (urljoinModel "https://example.com/dash".data "/sub/abc".data)
        = true)
    ∧ (GetSuburl.extract_subscription_url "<html><a href=\"/sub/abc\">x</a></html>".data
        "https://example.com/dash".data
      = some (urljoinModel "https://example.com/dash".data "/sub/abc".data)
    ∧ GetSuburl.get_subscription_from_airport "https://example.com/dash".data
        (some (200, "<html><a href=\"/sub/abc\">x</a></html>".data))
      = some (urljoinModel "https://example.com/dash".data "/sub/abc".data)) :=
  ⟨⟨by decide, by decide, by decide, by decide, by decide, by decide⟩,
    c5_soup_relative_resolution "<html><a href=\"/sub/abc\">x</a></html>".data
      "https://example.com/dash".data "/sub/abc".data
      (by decide) (by decide) (by decide) (by decide) (by decide) (by decide)⟩

/-- C8: in `subcon.py`, `get_subscription_from_airport` raises the
debug-stop exception unconditionally right after parsing the fetched
page, so the fallback pattern logic below it is unreachable: for every
fetched page the attempt ends in the debug-stop error, the function
returns `None` for every fetch outcome, and it returns `None` even on
a page where the fallback scan would have found a subscription link. -/
theorem c8_debug_stop_unreachable :
    (∀ html, Subcon.extract_attempt html = Except.error Subcon.PyExc.debugStop)
    ∧ (∀ fetch, Subcon.get_subscription_from_airport fetch = none)
    ∧ Subcon.fallback_scan
        (findAnchorHrefs "<a href=\"https://x/link/abc\">s</a>".data)
        "<a href=\"https://x/link/abc\">s</a>".data
      = some "https://x/link/abc".data
    ∧ Subcon.get_subscription_from_airport
        (some "<a href=\"https://x/link/abc\">s</a>".data) = none :=
  ⟨fun _ => rfl, fun fetch => by cases fetch <;> rfl, by decide, by decide⟩

theorem foldl_append_join {α β : Type} (f : α → List β) :
    ∀ (l : List α) (init : List β),
    l.foldl (fun acc x => acc ++ f x) init = init ++ (l.map f).join := by
  intro l
  induction l with
  | nil => intro init; simp
  | cons x t ih =>
    intro init
    simp only [List.foldl_cons, List.map_cons, List.join]
    rw [ih]
    simp

theorem foldl_ext {α β : Type} (l : List α) (f g : β → α → β) (b : β)
    (h : ∀ a ∈ l, ∀ acc, f acc a = g acc a) : l.foldl f b = l.foldl g b := by
  induction l generalizing b with
  | nil => rfl
  | cons x t ih =>
    simp only [List.foldl_cons]
    rw [h x (by simp)]
    exact ih _ (fun a ha acc => h a (by simp [ha]) acc)

namespace Subcon

/-- The local-node entries of `merge_all_nodes` in functional form:
split on `|`, strip, keep the non-empty. -/
def localEntries (local_nodes : List Char) : List (List Char) :=
  ((pySplit '|' local_nodes).map pyStrip).filter (fun n => !n.isEmpty)

/-- The node lines one airport contributes to `merge_all_nodes`:
nothing when the url or cookie is missing or empty, or when either
network stage fails; otherwise the content's non-empty stripped
lines. -/
def airportContrib (gs : List Char → List Char → Option (List Char))
    (gc : List Char → Option (List Char)) (ap : Airport) : List (List Char) :=
  match ap.url, ap.cookie with
  | some u, some ck =>
    if u.isEmpty || ck.isEmpty then []
    else
      match gs u ck with
      | none => []
      | some su =>
        match gc su with
        | none => []
        | some content =>
          ((pySplitlines content).filter (fun line => !(pyStrip line).isEmpty)).map pyStrip
  | _, _ => []

/-- An airport fails at some stage: missing or empty config, failed
link extraction (`gs`), or failed content fetch (`gc`). -/
def stageFailure (gs : List Char → List Char → Option (List Char))
    (gc : List Char → Option (List Char)) (ap : Airport) : Bool :=
  match ap.url, ap.cookie with
  | some u, some ck =>
    if u.isEmpty || ck.isEmpty then true
    else
      match gs u ck with
      | none => true
      | some su => (gc su).isNone
  | _, _ => true

theorem stageFailure_contrib_nil {gs gc} {ap : Airport}
    (h : stageFailure gs gc ap = true) : airportContrib gs gc ap = [] := by
  unfold stageFailure at h
  unfold airportContrib
  cases hu : ap.url with
  | none => rfl
  | some u =>
    cases hc : ap.cookie with
    | none => rfl
    | some ck =>
      rw [hu, hc] at h
      dsimp only at h ⊢
      by_cases he : u.isEmpty || ck.isEmpty
      · rw [if_pos he]
      · rw [if_neg he] at h ⊢
        cases hgs : gs u ck with
        | none => rfl
        | some su =>
          rw [hgs] at h
          dsimp only at h ⊢
          cases hgc : gc su with
          | none => rfl
          | some content => rw [hgc] at h; simp at h

theorem localPart_eq (local_nodes : List Char) :
    (if local_nodes.isEmpty then []
     else (pySplit '|' local_nodes).foldl
       (fun acc node => if (pyStrip node).isEmpty then acc else acc ++ [pyStrip node]) [])
    = localEntries local_nodes := by
  have key : ∀ (l : List (List Char)) (init : List (List Char)),
      l.foldl (fun acc node => if (pyStrip node).isEmpty then acc else acc ++ [pyStrip node]) init
        = init ++ (l.map pyStrip).filter (fun n => !n.isEmpty) := by
    intro l
    induction l with
    | nil => intro init; simp
    | cons x t ih =>
      intro init
      simp only [List.foldl_cons, List.map_cons, List.filter_cons]
      cases hx : (pyStrip x).isEmpty with
      | true => simp only [if_pos rfl, hx, Bool.not_true]; rw [ih]; rfl
      | false =>
        simp only [hx, Bool.not_false, if_neg (by simp [hx] : ¬(pyStrip x).isEmpty = true)]
        rw [ih]
        simp
  cases hl : local_nodes.isEmpty with
  | true =>
    have : local_nodes = [] := by
      cases local_nodes with
      | nil => rfl
      | cons c t => simp [List.isEmpty] at hl
    subst this
    simp only [if_pos rfl]
    unfold localEntries
    decide
  | false =>
    rw [if_neg (by simp [hl])]
    rw [key]
    rfl

theorem merge_decomp (gs : List Char → List Char → Option (List Char))
    (gc : List Char → Option (List Char))
    (airports : List Airport) (local_nodes : List Char) :
    merge_all_nodes gs gc airports local_nodes
      = joinLines (localEntries local_nodes
          ++ (airports.map (airportContrib gs gc)).join) := by
  unfold merge_all_nodes
  rw [localPart_eq]
  congr 1
  rw [foldl_ext airports _ (fun acc ap => acc ++ airportContrib gs gc ap) _ ?_]
  · exact foldl_append_join (airportContrib gs gc) airports (localEntries local_nodes)
  · intro ap _ acc
    obtain ⟨nm, u?, c?⟩ := ap
    cases u? with
    | none => simp [airportContrib]
    | some u =>
      cases c? with
      | none => simp [airportContrib]
      | some ck =>
        simp only [airportContrib]
        by_cases he : (u.isEmpty || ck.isEmpty) = true
        · rw [if_pos he, if_pos he]
          simp
        · rw [if_neg he, if_neg he]
          cases hgs : gs u ck with
          | none => simp
          | some su =>
            dsimp only
            cases hgc : gc su with
            | none => simp
            | some content => dsimp only

end Subcon

namespace Subcon

/-- Demonstration oracle for the two-airport scenario: only the second
airport's dashboard yields a subscription link. -/
def gsDemo : List Char → List Char → Option (List Char) :=
  fun u _ => if u = "https://b.example".data then some "https://b.example/s1".data else none

/-- Demonstration oracle: only the second airport's link yields
content, the two lines `n1` and `n2`. -/
def gcDemo : List Char → Option (List Char) :=
  fun s => if s = "https://b.example/s1".data then some "n1\nn2".data else none

/-- The airport whose dashboard fetch fails under `gsDemo`. -/
def apFailDemo : Airport := ⟨"A".data, some "https://a.example".data, some "c1".data⟩

/-- The airport that succeeds under `gsDemo` and `gcDemo`. -/
def apGoodDemo : Airport := ⟨"B".data, some "https://b.example".data, some "c2".data⟩

end Subcon

/-- C3: the merged output is exactly the local node entries followed
by, for each airport in configured order, that airport's non-empty
stripped content lines; an airport failing at any stage contributes
zero lines and leaves every other airport's contribution unchanged.
In the two-airport instance where the first fails at the dashboard
fetch and the second yields content `n1\nn2`, the output is exactly
the local nodes followed by `n1` and `n2`. -/
theorem c3_merge_failure_isolation
    (gs : List Char → List Char → Option (List Char))
    (gc : List Char → Option (List Char))
    (aps1 aps2 : List Subcon.Airport) (a : Subcon.Airport) (local_nodes : List Char)
    (hfail : Subcon.stageFailure gs gc a = true) :
    Subcon.merge_all_nodes gs gc (aps1 ++ a :: aps2) local_nodes
      = joinLines (Subcon.localEntries local_nodes
          ++ (((aps1 ++ aps2).map (Subcon.airportContrib gs gc)).join))
    ∧ Subcon.airportContrib gs gc a = []
    ∧ Subcon.merge_all_nodes Subcon.gsDemo Subcon.gcDemo
        [Subcon.apFailDemo, Subcon.apGoodDemo] "local1".data
      = "local1\nn1\nn2".data := by
  have hnil := Subcon.stageFailure_contrib_nil hfail
  refine ⟨?_, hnil, by decide⟩
  rw [Subcon.merge_decomp]
  congr 1
  congr 1
  simp [hnil]

theorem c3_merge_failure_isolation_witness :
    Subcon.stageFailure Subcon.gsDemo Subcon.gcDemo Subcon.apFailDemo = true
    ∧ (Subcon.merge_all_nodes Subcon.gsDemo Subcon.gcDemo
          ([] ++ Subcon.apFailDemo :: [Subcon.apGoodDemo]) "local1".data
        = joinLines (Subcon.localEntries "local1".data
            ++ ((([] ++ [Subcon.apGoodDemo]).map
                  (Subcon.airportContrib Subcon.gsDemo Subcon.gcDemo)).join))
      ∧ Subcon.airportContrib Subcon.gsDemo Subcon.gcDemo Subcon.apFailDemo = []
      ∧ Subcon.merge_all_nodes Subcon.gsDemo Subcon.gcDemo
          [Subcon.apFailDemo, Subcon.apGoodDemo] "local1".data
        = "local1\nn1\nn2".data) :=
  ⟨by decide,
    c3_merge_failure_isolation Subcon.gsDemo Subcon.gcDemo [] [Subcon.apGoodDemo]
      Subcon.apFailDemo "local1".data (by decide)⟩

/-- C7: `merge_all_nodes` splits the local-nodes string on `|`, strips
each entry, and keeps exactly the non-empty entries in order; the
string `"a | b |c"` yields exactly the entries `a`, `b`, `c`. -/
theorem c7_local_nodes_split
    (gs : List Char → List Char → Option (List Char))
    (gc : List Char → Option (List Char)) (local_nodes : List Char) :
    Subcon.merge_all_nodes gs gc [] local_nodes
      = joinLines (((pySplit '|' local_nodes).map pyStrip).filter (fun n => !n.isEmpty))
    ∧ ((pySplit '|' "a | b |c".data).map pyStrip).filter (fun n => !n.isEmpty)
      = ["a".data, "b".data, "c".data]
    ∧ Subcon.merge_all_nodes gs gc [] "a | b |c".data = "a\nb\nc".data := by
  have key : ∀ loc, Subcon.merge_all_nodes gs gc [] loc
      = joinLines (((pySplit '|' loc).map pyStrip).filter (fun n => !n.isEmpty)) := by
    intro loc
    rw [Subcon.merge_decomp]
    simp [Subcon.localEntries]
  refine ⟨key local_nodes, by decide, ?_⟩
  rw [key "a | b |c".data]
  decide

theorem pySplit_ne_nil (sep : Char) (s : List Char) : pySplit sep s ≠ [] := by
  cases s with
  | nil => simp [pySplit]
  | cons c t =>
    unfold pySplit
    by_cases hc : c = sep
    · simp [hc]
    · rw [if_neg hc]
      cases hps : pySplit sep t with
      | nil => simp
      | cons s0 ss => simp

theorem pySplit_head (sep : Char) (s : List Char) :
    (pySplit sep s).getD 0 [] = s.takeWhile (fun c => c != sep) := by
  induction s with
  | nil => rfl
  | cons c t ih =>
    unfold pySplit
    by_cases hc : c = sep
    · rw [if_pos hc]
      subst hc
      simp [List.takeWhile_cons]
    · rw [if_neg hc]
      cases hps : pySplit sep t with
      | nil => exact absurd hps (pySplit_ne_nil sep t)
      | cons s0 ss =>
        have hs0 : s0 = t.takeWhile (fun c => c != sep) := by
          rw [← ih, hps]
          rfl
        simp [List.takeWhile_cons, hc, hs0]

theorem pySplit_append_sep (sep : Char) (rest : List Char) :
    ∀ k, sep ∉ k → pySplit sep (k ++ sep :: rest) = k :: pySplit sep rest := by
  intro k
  induction k with
  | nil => intro _; simp [pySplit]
  | cons c k' ih =>
    intro hk
    have hc : ¬ c = sep := fun he => hk (by simp [he])
    simp only [List.cons_append]
    conv_lhs => unfold pySplit
    rw [if_neg hc, ih (fun hm => hk (by simp [hm]))]

theorem dropWhile_eq_cons_of_mem {item : List Char} (hm : '=' ∈ item) :
    ∃ r, item.dropWhile (fun c => c != '=') = '=' :: r := by
  induction item with
  | nil => simp at hm
  | cons c t ih =>
    by_cases hc : c = '='
    · subst hc
      exact ⟨t, by simp [List.dropWhile_cons]⟩
    · have hm' : '=' ∈ t := by
        rcases List.mem_cons.mp hm with h | h
        · exact absurd h.symm hc
        · exact h
      obtain ⟨r, hr⟩ := ih hm'
      exact ⟨r, by simp [List.dropWhile_cons, hc, hr]⟩

namespace GetSuburl

theorem cookieItemEntry_char (item : List Char) (hm : '=' ∈ item) :
    cookieItemEntry item
      = (pyStrip (item.takeWhile (fun c => c != '=')),
         pyStrip (((item.dropWhile (fun c => c != '=')).drop 1).takeWhile (fun c => c != '='))) := by
  obtain ⟨r, hr⟩ := dropWhile_eq_cons_of_mem hm
  have hk : '=' ∉ item.takeWhile (fun c => c != '=') := by
    intro hmem
    have := List.mem_takeWhile_imp hmem
    simp at this
  have hsplit : item = item.takeWhile (fun c => c != '=') ++ '=' :: r := by
    conv_lhs => rw [← List.takeWhile_append_dropWhile (p := fun c => c != '=') (l := item)]
    rw [hr]
  have h0 : (pySplit '=' item).getD 0 [] = item.takeWhile (fun c => c != '=') :=
    pySplit_head '=' item
  have h1 : (pySplit '=' item).getD 1 [] = r.takeWhile (fun c => c != '=') := by
    conv_lhs => rw [hsplit]
    rw [pySplit_append_sep '=' r _ hk]
    simpa using pySplit_head '=' r
  unfold cookieItemEntry
  rw [h0, h1, hr]
  simp

/-- C10: `parse_cookie_string` always returns a dictionary (the
embedding is total, so nothing raises): the empty string yields the
empty dictionary, the string is split on `;`, items without `=` are
skipped, and each kept item maps the stripped text before its first `=`
to the stripped text between its first and second `=`; in particular
`a=b=c` maps `a` to `b`. -/
theorem c10_parse_cookie_string (cookie_str : List Char) :
    parse_cookie_string [] = []
    ∧ parse_cookie_string cookie_str
      = ((pySplit ';' cookie_str).filter (fun item => item.contains '=')).foldl
          (fun d item => dictInsert d
            (pyStrip (item.takeWhile (fun c => c != '=')))
            (pyStrip (((item.dropWhile (fun c => c != '=')).drop 1).takeWhile
              (fun c => c != '='))))
          []
    ∧ parse_cookie_string "a=b=c".data = [("a".data, "b".data)] := by
  refine ⟨rfl, ?_, by decide⟩
  cases hcs : cookie_str.isEmpty with
  | true =>
    have he : cookie_str = [] := by
      cases cookie_str with
      | nil => rfl
      | cons c t => simp [List.isEmpty] at hcs
    subst he
    decide
  | false =>
    unfold parse_cookie_string
    rw [if_neg (by simp [hcs])]
    apply foldl_ext
    intro item hitem acc
    have hm : '=' ∈ item := by
      have hc := (List.mem_filter.mp hitem).2
      exact List.elem_iff.mp hc
    rw [cookieItemEntry_char item hm]

end GetSuburl

theorem char_valid_nat (c : Char) :
    c.toNat < 0xD800 ∨ (0xDFFF < c.toNat ∧ c.toNat < 0x110000) := by
  have h := c.valid
  simp only [UInt32.isValidChar, Nat.isValidChar] at h
  exact h

theorem char_toNat_lt (c : Char) : c.toNat < 0x110000 := by
  rcases char_valid_nat c with h | h <;> omega

theorem toNat_ofNat_valid {n : Nat} (h : n.isValidChar) : (Char.ofNat n).toNat = n := by
  unfold Char.ofNat
  rw [dif_pos h]
  unfold Char.ofNatAux Char.toNat
  simp
  rfl

theorem utf8DecodeF_nil (n : Nat) : utf8DecodeF n [] = some [] := by
  cases n <;> rfl

theorem utf8DecodeF_succ (n : Nat) (b : Nat) (rest : List Nat) :
    utf8DecodeF (n + 1) (b :: rest)
      = (if b < 0x80 then (utf8DecodeF n rest).map (fun t => Char.ofNat b :: t)
        else if b < 0xC2 then none
        else if b < 0xE0 then
          match rest with
          | b1 :: rest1 =>
            if 0x80 ≤ b1 && b1 < 0xC0 then
              (utf8DecodeF n rest1).map
                (fun t => Char.ofNat ((b - 0xC0) * 64 + (b1 - 0x80)) :: t)
            else none
          | [] => none
        else if b < 0xF0 then
          match rest with
          | b1 :: b2 :: rest2 =>
            if (0x80 ≤ b1 && b1 < 0xC0) && (0x80 ≤ b2 && b2 < 0xC0) then
              if 0x800 ≤ (b - 0xE0) * 4096 + (b1 - 0x80) * 64 + (b2 - 0x80)
                  && ((b - 0xE0) * 4096 + (b1 - 0x80) * 64 + (b2 - 0x80) < 0xD800
                      || 0xE000 ≤ (b - 0xE0) * 4096 + (b1 - 0x80) * 64 + (b2 - 0x80)) then
                (utf8DecodeF n rest2).map
                  (fun t => Char.ofNat ((b - 0xE0) * 4096 + (b1 - 0x80) * 64 + (b2 - 0x80)) :: t)
              else none
            else none
          | _ => none
        else if b < 0xF5 then
          match rest with
          | b1 :: b2 :: b3 :: rest3 =>
            if (0x80 ≤ b1 && b1 < 0xC0) && (0x80 ≤ b2 && b2 < 0xC0)
                && (0x80 ≤ b3 && b3 < 0xC0) then
              if 0x10000 ≤ (b - 0xF0) * 262144 + (b1 - 0x80) * 4096 + (b2 - 0x80) * 64
                    + (b3 - 0x80)
                  && (b - 0xF0) * 262144 + (b1 - 0x80) * 4096 + (b2 - 0x80) * 64 + (b3 - 0x80)
                      < 0x110000 then
                (utf8DecodeF n rest3).map
                  (fun t =>
                    Char.ofNat ((b - 0xF0) * 262144 + (b1 - 0x80) * 4096 + (b2 - 0x80) * 64
                      + (b3 - 0x80)) :: t)
              else none
            else none
          | _ => none
        else none) := rfl

theorem utf8DecodeF_mono : ∀ (n m : Nat) (bs : List Nat),
    bs.length ≤ n → bs.length ≤ m → utf8DecodeF n bs = utf8DecodeF m bs := by
  intro n
  induction n with
  | zero =>
    intro m bs h1 _
    cases bs with
    | nil => rw [utf8DecodeF_nil, utf8DecodeF_nil]
    | cons b t => simp at h1
  | succ n ih =>
    intro m bs h1 h2
    cases bs with
    | nil => rw [utf8DecodeF_nil, utf8DecodeF_nil]
    | cons b rest =>
      cases m with
      | zero => simp at h2
      | succ m' =>
        rw [utf8DecodeF_succ, utf8DecodeF_succ]
        simp only [List.length_cons] at h1 h2
        by_cases hb1 : b < 0x80
        · rw [if_pos hb1, if_pos hb1, ih m' rest (by omega) (by omega)]
        · rw [if_neg hb1, if_neg hb1]
          by_cases hb2 : b < 0xC2
          · rw [if_pos hb2, if_pos hb2]
          · rw [if_neg hb2, if_neg hb2]
            by_cases hb3 : b < 0xE0
            · rw [if_pos hb3, if_pos hb3]
              cases rest with
              | nil => rfl
              | cons b1 rest1 =>
                simp only [List.length_cons] at h1 h2
                dsimp only
                rw [ih m' rest1 (by omega) (by omega)]
            · rw [if_neg hb3, if_neg hb3]
              by_cases hb4 : b < 0xF0
              · rw [if_pos hb4, if_pos hb4]
                cases rest with
                | nil => rfl
                | cons b1 rest' =>
                  cases rest' with
                  | nil => rfl
                  | cons b2 rest2 =>
                    simp only [List.length_cons] at h1 h2
                    dsimp only
                    rw [ih m' rest2 (by omega) (by omega)]
              · rw [if_neg hb4, if_neg hb4]
                by_cases hb5 : b < 0xF5
                · rw [if_pos hb5, if_pos hb5]
                  cases rest with
                  | nil => rfl
                  | cons b1 rest' =>
                    cases rest' with
                    | nil => rfl
                    | cons b2 rest'' =>
                      cases rest'' with
                      | nil => rfl
                      | cons b3 rest3 =>
                        simp only [List.length_cons] at h1 h2
                        dsimp only
                        rw [ih m' rest3 (by omega) (by omega)]
                · rw [if_neg hb5, if_neg hb5]

theorem utf8Decode_encodeChar (c : Char) (bs : List Nat) :
    utf8Decode (utf8EncodeChar c ++ bs) = (utf8Decode bs).map (fun t => c :: t) := by
  have hv := char_valid_nat c
  have hlt := char_toNat_lt c
  unfold utf8EncodeChar
  by_cases h1 : c.toNat < 0x80
  · rw [if_pos h1]
    show utf8DecodeF (bs.length + 1) (c.toNat :: bs) = _
    rw [utf8DecodeF_succ, if_pos h1, Char.ofNat_toNat]
    rfl
  · rw [if_neg h1]
    by_cases h2 : c.toNat < 0x800
    · rw [if_pos h2]
      show utf8DecodeF (bs.length + 1 + 1) ((0xC0 + c.toNat / 64) :: (0x80 + c.toNat % 64) :: bs)
        = _
      rw [utf8DecodeF_succ]
      rw [if_neg (by omega), if_neg (by omega), if_pos (by omega)]
      dsimp only
      rw [if_pos (by simp only [Bool.and_eq_true, decide_eq_true_eq]; omega)]
      have harg : (0xC0 + c.toNat / 64 - 0xC0) * 64 + (0x80 + c.toNat % 64 - 0x80)
          = c.toNat := by omega
      rw [harg, Char.ofNat_toNat]
      rw [utf8DecodeF_mono (bs.length + 1) bs.length bs (by omega) (Nat.le_refl _)]
      rfl
    · rw [if_neg h2]
      by_cases h3 : c.toNat < 0x10000
      · rw [if_pos h3]
        show utf8DecodeF (bs.length + 1 + 1 + 1) ((0xE0 + c.toNat / 4096)
            :: (0x80 + c.toNat / 64 % 64) :: (0x80 + c.toNat % 64) :: bs) = _
        rw [utf8DecodeF_succ]
        rw [if_neg (by omega), if_neg (by omega), if_neg (by omega), if_pos (by omega)]
        dsimp only
        rw [if_pos (by simp only [Bool.and_eq_true, decide_eq_true_eq]; omega)]
        have harg : (0xE0 + c.toNat / 4096 - 0xE0) * 4096
            + (0x80 + c.toNat / 64 % 64 - 0x80) * 64 + (0x80 + c.toNat % 64 - 0x80)
            = c.toNat := by omega
        rw [harg]
        rw [if_pos (by simp only [Bool.and_eq_true, decide_eq_true_eq,
            Bool.or_eq_true]; omega)]
        rw [Char.ofNat_toNat]
        rw [utf8DecodeF_mono (bs.length + 1 + 1) bs.length bs (by omega) (Nat.le_refl _)]
        rfl
      · rw [if_neg h3]
        show utf8DecodeF (bs.length + 1 + 1 + 1 + 1) ((0xF0 + c.toNat / 262144)
            :: (0x80 + c.toNat / 4096 % 64) :: (0x80 + c.toNat / 64 % 64)
            :: (0x80 + c.toNat % 64) :: bs) = _
        rw [utf8DecodeF_succ]
        rw [if_neg (by omega), if_neg (by omega), if_neg (by omega), if_neg (by omega),
          if_pos (by omega)]
        dsimp only
        rw [if_pos (by simp only [Bool.and_eq_true, decide_eq_true_eq]; omega)]
        have harg : (0xF0 + c.toNat / 262144 - 0xF0) * 262144
            + (0x80 + c.toNat / 4096 % 64 - 0x80) * 4096
            + (0x80 + c.toNat / 64 % 64 - 0x80) * 64 + (0x80 + c.toNat % 64 - 0x80)
            = c.toNat := by omega
        rw [harg]
        rw [if_pos (by simp only [Bool.and_eq_true, decide_eq_true_eq]; omega)]
        rw [Char.ofNat_toNat]
        rw [utf8DecodeF_mono (bs.length + 1 + 1 + 1) bs.length bs (by omega) (Nat.le_refl _)]
        rfl

theorem utf8Decode_encode (s : List Char) : utf8Decode (utf8Encode s) = some s := by
  induction s with
  | nil => rfl
  | cons c t ih =>
    show utf8Decode (utf8EncodeChar c ++ (t.map utf8EncodeChar).join) = some (c :: t)
    rw [utf8Decode_encodeChar]
    rw [show (t.map utf8EncodeChar).join = utf8Encode t from rfl, ih]
    rfl

theorem utf8EncodeChar_lt_256 (c : Char) : ∀ b ∈ utf8EncodeChar c, b < 256 := by
  have hlt := char_toNat_lt c
  unfold utf8EncodeChar
  by_cases h1 : c.toNat < 0x80
  · rw [if_pos h1]; intro b hb; simp at hb; omega
  · rw [if_neg h1]
    by_cases h2 : c.toNat < 0x800
    · rw [if_pos h2]; intro b hb; simp at hb; rcases hb with h | h <;> omega
    · rw [if_neg h2]
      by_cases h3 : c.toNat < 0x10000
      · rw [if_pos h3]; intro b hb; simp at hb; rcases hb with h | h | h <;> omega
      · rw [if_neg h3]; intro b hb; simp at hb; rcases hb with h | h | h | h <;> omega

theorem utf8Encode_lt_256 (s : List Char) : ∀ b ∈ utf8Encode s, b < 256 := by
  intro b hb
  unfold utf8Encode at hb
  simp only [List.mem_join, List.mem_map] at hb
  obtain ⟨l, ⟨c, _, hc⟩, hbl⟩ := hb
  exact utf8EncodeChar_lt_256 c b (hc ▸ hbl)

theorem b64val_b64Char : ∀ n, n < 64 → b64val (b64Char n) = some n := by decide

theorem b64Char_ne_pad : ∀ n, n < 64 → ¬ b64Char n = '=' := by decide

theorem b64Char_ascii : ∀ n, n < 64 → (b64Char n).toNat < 128 := by decide

theorem b64encode_mem : ∀ (bytes : List Nat), (∀ b ∈ bytes, b < 256) →
    ∀ c ∈ b64encode bytes, (∃ n, n < 64 ∧ c = b64Char n) ∨ c = '=' := by
  intro bytes
  induction bytes using b64encode.induct with
  | case1 => intro _ c hc; simp [b64encode] at hc
  | case2 a =>
    intro h c hc
    have ha : a < 256 := h a (by simp)
    simp [b64encode] at hc
    rcases hc with h1 | h1 | h1
    · exact Or.inl ⟨a / 4, by omega, h1⟩
    · exact Or.inl ⟨a % 4 * 16, by omega, h1⟩
    · exact Or.inr h1
  | case3 a b =>
    intro h c hc
    have ha : a < 256 := h a (by simp)
    have hb : b < 256 := h b (by simp)
    simp [b64encode] at hc
    rcases hc with h1 | h1 | h1 | h1
    · exact Or.inl ⟨a / 4, by omega, h1⟩
    · exact Or.inl ⟨a % 4 * 16 + b / 16, by omega, h1⟩
    · exact Or.inl ⟨b % 16 * 4, by omega, h1⟩
    · exact Or.inr h1
  | case4 a b d rest ih =>
    intro h c hc
    have ha : a < 256 := h a (by simp)
    have hb : b < 256 := h b (by simp)
    have hd : d < 256 := h d (by simp)
    simp only [b64encode, List.mem_cons] at hc
    rcases hc with h1 | h1 | h1 | h1 | h1
    · exact Or.inl ⟨a / 4, by omega, h1⟩
    · exact Or.inl ⟨a % 4 * 16 + b / 16, by omega, h1⟩
    · exact Or.inl ⟨b % 16 * 4 + d / 64, by omega, h1⟩
    · exact Or.inl ⟨d % 64, by omega, h1⟩
    · exact ih (fun x hx => h x (by simp [hx])) c h1

theorem b64encode_ascii (bytes : List Nat) (h : ∀ b ∈ bytes, b < 256) :
    (b64encode bytes).any (fun c => 128 ≤ c.toNat) = false := by
  rw [List.any_eq_false]
  intro c hc
  rcases b64encode_mem bytes h c hc with ⟨n, hn, he⟩ | he
  · subst he
    have := b64Char_ascii n hn
    simp only [decide_eq_true_eq]
    omega
  · subst he; decide

theorem b64encode_filter (bytes : List Nat) (h : ∀ b ∈ bytes, b < 256) :
    (b64encode bytes).filter (fun c => (b64val c).isSome || c = '=') = b64encode bytes := by
  rw [List.filter_eq_self]
  intro c hc
  rcases b64encode_mem bytes h c hc with ⟨n, hn, he⟩ | he
  · subst he; simp [b64val_b64Char n hn]
  · subst he; simp

theorem b64decodeQuads_encode : ∀ (bytes : List Nat), (∀ b ∈ bytes, b < 256) →
    b64decodeQuads (b64encode bytes) = some bytes := by
  intro bytes
  induction bytes using b64encode.induct with
  | case1 => intro _; rfl
  | case2 a =>
    intro h
    have ha : a < 256 := h a (by simp)
    show b64decodeQuads (b64Char (a / 4) :: b64Char (a % 4 * 16) :: '=' :: '=' :: [])
      = some [a]
    rw [b64decodeQuads.eq_def]
    dsimp only
    rw [b64val_b64Char _ (by omega), b64val_b64Char _ (by omega)]
    dsimp only
    rw [if_pos rfl, if_pos rfl]
    have e1 : a / 4 * 4 + a % 4 * 16 / 16 = a := by omega
    rw [e1]
  | case3 a b =>
    intro h
    have ha : a < 256 := h a (by simp)
    have hb : b < 256 := h b (by simp)
    show b64decodeQuads (b64Char (a / 4) :: b64Char (a % 4 * 16 + b / 16)
        :: b64Char (b % 16 * 4) :: '=' :: []) = some [a, b]
    rw [b64decodeQuads.eq_def]
    dsimp only
    rw [b64val_b64Char _ (by omega), b64val_b64Char _ (by omega)]
    dsimp only
    rw [if_neg (b64Char_ne_pad _ (by omega))]
    rw [b64val_b64Char _ (by omega)]
    dsimp only
    rw [if_pos rfl]
    have e1 : a / 4 * 4 + (a % 4 * 16 + b / 16) / 16 = a := by omega
    have e2 : (a % 4 * 16 + b / 16) % 16 * 16 + b % 16 * 4 / 4 = b := by omega
    rw [e1, e2]
  | case4 a b d rest ih =>
    intro h
    have ha : a < 256 := h a (by simp)
    have hb : b < 256 := h b (by simp)
    have hd : d < 256 := h d (by simp)
    show b64decodeQuads (b64Char (a / 4) :: b64Char (a % 4 * 16 + b / 16)
        :: b64Char (b % 16 * 4 + d / 64) :: b64Char (d % 64) :: b64encode rest)
      = some (a :: b :: d :: rest)
    rw [b64decodeQuads.eq_def]
    dsimp only
    rw [b64val_b64Char _ (by omega), b64val_b64Char _ (by omega)]
    dsimp only
    rw [if_neg (b64Char_ne_pad _ (by omega))]
    rw [b64val_b64Char _ (by omega)]
    dsimp only
    rw [if_neg (b64Char_ne_pad _ (by omega))]
    rw [b64val_b64Char _ (by omega)]
    dsimp only
    rw [ih (fun x hx => h x (by simp [hx]))]
    have e1 : a / 4 * 4 + (a % 4 * 16 + b / 16) / 16 = a := by omega
    have e2 : (a % 4 * 16 + b / 16) % 16 * 16 + (b % 16 * 4 + d / 64) / 4 = b := by omega
    have e3 : (b % 16 * 4 + d / 64) % 4 * 64 + d % 64 = d := by omega
    rw [e1, e2, e3]
    rfl

theorem b64decodePy_encode (bytes : List Nat) (h : ∀ b ∈ bytes, b < 256) :
    b64decodePy (b64encode bytes) = some bytes := by
  unfold b64decodePy
  rw [if_neg (by rw [b64encode_ascii bytes h]; simp)]
  rw [b64encode_filter bytes h]
  exact b64decodeQuads_encode bytes h

/-- C4: the decode step of `get_subscription_content` returns the
decoded plaintext when the body is valid base64 of valid UTF-8 (here:
any base64-encoded UTF-8 text, via the encode/decode round trips), and
returns the body completely unchanged when the decode chain fails; the
failure is not an error (the function still returns `some`). -/
theorem c4_decode_fallback (s body : List Char)
    (hbad : (b64decodePy body).bind utf8Decode = none) :
    Subcon.get_subscription_content (some (b64encode (utf8Encode s))) = some s
    ∧ Subcon.get_subscription_content (some body) = some body := by
  constructor
  · show some (Subcon.decode_step (b64encode (utf8Encode s))) = some s
    unfold Subcon.decode_step
    rw [b64decodePy_encode (utf8Encode s) (utf8Encode_lt_256 s)]
    rw [Option.some_bind, utf8Decode_encode]
  · show some (Subcon.decode_step body) = some body
    unfold Subcon.decode_step
    rw [hbad]

theorem c4_decode_fallback_witness :
    ((b64decodePy "hello".data).bind utf8Decode = none)
    ∧ (Subcon.get_subscription_content (some (b64encode (utf8Encode "node1\nnode2".data)))
        = some "node1\nnode2".data
    ∧ Subcon.get_subscription_content (some "hello".data) = some "hello".data) :=
  ⟨by decide, c4_decode_fallback "node1\nnode2".data "hello".data (by decide)⟩

theorem hexDigit_unhex : ∀ n, n < 16 → unhex (hexDigit n) = some n := by decide

theorem percentDecode_quoteByte (b : Nat) (hb : b < 256) (cs : List Char) :
    percentDecode (quotePlusByte b ++ cs) = (percentDecode cs).map (fun t => b :: t) := by
  unfold quotePlusByte
  by_cases h32 : b = 32
  · rw [if_pos h32]
    show percentDecode ('+' :: cs) = _
    rw [percentDecode.eq_def]
    dsimp only
    rw [if_neg (by decide), if_pos rfl]
    subst h32
    rfl
  · rw [if_neg h32]
    by_cases hsafe : isSafeByte b = true
    · rw [if_pos hsafe]
      show percentDecode (Char.ofNat b :: cs) = _
      have hvalid : Nat.isValidChar b := Or.inl (by omega)
      have htn : (Char.ofNat b).toNat = b := toNat_ofNat_valid hvalid
      have hne1 : ¬ (Char.ofNat b = '%') := by
        intro he
        rw [he] at htn
        have h37 : b = 37 := by simpa using htn.symm
        subst h37
        exact absurd hsafe (by decide)
      have hne2 : ¬ (Char.ofNat b = '+') := by
        intro he
        rw [he] at htn
        have h43 : b = 43 := by simpa using htn.symm
        subst h43
        exact absurd hsafe (by decide)
      rw [percentDecode.eq_def]
      dsimp only
      rw [if_neg hne1, if_neg hne2, htn]
    · rw [if_neg hsafe]
      show percentDecode ('%' :: hexDigit (b / 16) :: hexDigit (b % 16) :: cs) = _
      rw [percentDecode.eq_def]
      dsimp only
      rw [if_pos rfl]
      rw [hexDigit_unhex _ (by omega), hexDigit_unhex _ (by omega)]
      dsimp only
      have e : b / 16 * 16 + b % 16 = b := by omega
      rw [e]

theorem percentDecode_bytes : ∀ (bs : List Nat), (∀ b ∈ bs, b < 256) →
    percentDecode ((bs.map quotePlusByte).join) = some bs := by
  intro bs
  induction bs with
  | nil => intro _; rfl
  | cons b t ih =>
    intro h
    show percentDecode (quotePlusByte b ++ (t.map quotePlusByte).join) = some (b :: t)
    rw [percentDecode_quoteByte b (h b (by simp))]
    rw [ih (fun x hx => h x (by simp [hx]))]
    rfl

theorem percentDecode_quotePlus (s : List Char) :
    percentDecode (quotePlus s) = some (utf8Encode s) :=
  percentDecode_bytes (utf8Encode s) (utf8Encode_lt_256 s)

theorem unquotePlus_quotePlus (s : List Char) : unquotePlus (quotePlus s) = some s := by
  unfold unquotePlus
  rw [percentDecode_quotePlus, Option.some_bind, utf8Decode_encode]

set_option maxRecDepth 100000 in
/-- C9: `generate_subconvert_url` is the conversion-service base URL,
`?`, and the urlencoded fixed parameter set: `target` is the requested
format, `url` is the base64 of the UTF-8 encoded merged node text, the
hard-coded rule-set URL appears percent-encoded under `config`, and
the fixed boolean flags follow; URL-decoding the `url` parameter and
then base64- and UTF-8-decoding it recovers the merged text exactly
(and likewise `target` recovers the format). -/
theorem c9_subconvert_url_roundtrip (subconvert_base m fmt : List Char) :
    Subcon.generate_subconvert_url subconvert_base m fmt
      = subconvert_base
        ++ ("?target=".data
          ++ (quotePlus fmt
            ++ ("&url=".data
              ++ (quotePlus (b64encode (utf8Encode m))
                ++ ("&insert=false&config=https%3A%2F%2Fraw.githubusercontent.com%2FACL4SSR%2FACL4SSR%2Fmaster%2FClash%2Fconfig%2FACL4SSR_Online.ini&emoji=true&list=false&udp=true&tfo=false&scv=false&fdn=false&sort=false".data)))))
    ∧ unquotePlus (quotePlus fmt) = some fmt
    ∧ (unquotePlus (quotePlus (b64encode (utf8Encode m)))).bind
        (fun e => (b64decodePy e).bind utf8Decode) = some m := by
  refine ⟨rfl, unquotePlus_quotePlus fmt, ?_⟩
  rw [unquotePlus_quotePlus, Option.some_bind]
  rw [b64decodePy_encode (utf8Encode m) (utf8Encode_lt_256 m), Option.some_bind]
  exact utf8Decode_encode m
